import Mathlib

/-!
Formal model of the Involve→ICS calendar harvesting pipeline
(`scripts/scrape-and-build-ics.mjs` and its sibling variants).

Timestamps are modelled as integers counting milliseconds since the Unix
epoch, matching the `valueOf`/`toMillis` values that the JavaScript code
compares with `<`, `<=`, `>=`.  A luxon `DateTime` can also be *invalid*
(its `valueOf` is `NaN`, so every comparison involving it is `false`);
`TimeVal` captures exactly these two cases.
-/

namespace Calendar

def msPerMinute : Int := 60000

def msPerHalfHour : Int := 1800000

def msPerHour : Int := 3600000

def msPerDay : Int := 86400000

/-- A luxon `DateTime` as the pipeline observes it: either a valid instant
(milliseconds since epoch) or an invalid `DateTime` whose `valueOf` is `NaN`. -/
inductive TimeVal
  | valid (t : Int)
  | invalid
deriving DecidableEq, Repr

/-- JavaScript `a <= b` on two `DateTime`s: comparison via `valueOf`; any
comparison with `NaN` (an invalid `DateTime`) is `false`. -/
def jsLE : TimeVal → TimeVal → Bool
  | .valid a, .valid b => a ≤ b
  | _, _ => false

/-- JavaScript `a < b` on two `DateTime`s, with the same `NaN` convention. -/
def jsLT : TimeVal → TimeVal → Bool
  | .valid a, .valid b => a < b
  | _, _ => false

/-- A raw start/end field value together with the outcome of the external
luxon parse applied to it by `normaliseFromJSON`: a numeric value is parsed
with `DateTime.fromMillis` (always valid), a string with `DateTime.fromISO`
(valid or invalid). -/
inductive RawTime
  | millis (n : Int)
  | isoParsed (t : Int)
  | isoInvalid
deriving DecidableEq, Repr

/-- The luxon parse of a resolved raw time value (`DateTime.fromMillis` for
numbers, `DateTime.fromISO` for strings). -/
def parseRawTime : RawTime → TimeVal
  | .millis n => .valid n
  | .isoParsed t => .valid t
  | .isoInvalid => .invalid

/-- One raw record handed to `normaliseFromJSON`.  String fields are `none`
when the key is absent; `startVal`/`endVal` are the first JavaScript-truthy
value among the alternate key spellings that the source tries in order
(`e.start || e.starts_at || e.start_date || ...`), or `none` when every
alternative is absent or falsy. -/
structure RawRecord where
  title : Option String := none
  name : Option String := none
  location : Option String := none
  place : Option String := none
  description : Option String := none
  url : Option String := none
  link : Option String := none
  eventUrl : Option String := none
  allDay : Bool := false
  startVal : Option RawTime := none
  endVal : Option RawTime := none
deriving DecidableEq, Repr

/-- JavaScript truthiness for a string-valued field: `undefined` and the
empty string are falsy. -/
def truthyStr (o : Option String) : Option String :=
  o.bind (fun s => if s = "" then none else some s)

/-- JavaScript `String.prototype.trim()`: strip leading and trailing
whitespace. -/
def trimStr (s : String) : String :=
  ⟨((s.data.dropWhile Char.isWhitespace).reverse.dropWhile Char.isWhitespace).reverse⟩

/-- The event record pushed by `normaliseFromJSON`.  `start` is always a
valid instant (records with an unparsable start are skipped), but the end
can be an invalid `DateTime` (see `jsLE`), so it is kept as a `TimeVal`. -/
structure NEvent where
  title : String
  location : String
  description : String
  url : Option String
  allDay : Bool
  start : Int
  endTime : TimeVal
deriving DecidableEq, Repr

/-- The per-record body of `normaliseFromJSON`:

```js
let start = ... fromMillis/fromISO ...;
let end   = en ? (... fromMillis/fromISO ...) : null;
if (!start.isValid) continue;
if (!end) end = start.plus({ hours: 1 });
if (end <= start) end = start.plus({ minutes: 30 });
out.push({ title, location, description, url, allDay,
           start: start.setZone(tz), end: end.setZone(tz) });
```

`setZone` does not change the instant, so it is the identity here.
A record whose start field is absent parses `String(undefined)`, which is
invalid, so it is skipped like any other unparsable start. -/
def normaliseRecord (r : RawRecord) : Option NEvent :=
  let startParsed : TimeVal :=
    match r.startVal with
    | none => .invalid
    | some v => parseRawTime v
  match startParsed with
  | .invalid => none
  | .valid ts =>
    let end0 : TimeVal :=
      match r.endVal with
      | none => .valid (ts + msPerHour)
      | some v => parseRawTime v
    let end1 : TimeVal :=
      if jsLE end0 (.valid ts) then .valid (ts + msPerHalfHour) else end0
    some {
      title := trimStr (((truthyStr r.title).orElse (fun _ => truthyStr r.name)).getD "School event")
      location := trimStr (((truthyStr r.location).orElse (fun _ => truthyStr r.place)).getD "")
      description := (truthyStr r.description).getD ""
      url := ((truthyStr r.url).orElse (fun _ => truthyStr r.link)).orElse (fun _ => truthyStr r.eventUrl)
      allDay := r.allDay
      start := ts
      endTime := end1
    }

/-- `normaliseFromJSON` over the unwrapped record array: the `for` loop that
pushes zero or one canonical event per raw record. -/
def normaliseFromJSON (records : List RawRecord) : List NEvent :=
  records.filterMap normaliseRecord

/-- The canonical event model of the pipeline proper (§3 of the design):
`start` and `end` are valid zoned timestamps, compared as instants. -/
structure Event where
  title : String
  location : String
  description : String
  url : Option String
  allDay : Bool
  start : Int
  endTime : Int
deriving DecidableEq, Repr

/-- `filterWindow(all, start, end)` / the inline window filter:
`all.filter(e => e.start < end && e.end > start)`. -/
def filterWindow (all : List Event) (ws we : Int) : List Event :=
  all.filter (fun e => decide (e.start < we ∧ ws < e.endTime))

/-- `uniqBy`'s loop with its `seen` set of already-emitted keys. -/
def uniqByAux {α κ : Type} [DecidableEq κ] (idFn : α → κ) : List κ → List α → List α
  | _, [] => []
  | seen, x :: xs =>
    if idFn x ∈ seen then uniqByAux idFn seen xs
    else x :: uniqByAux idFn (idFn x :: seen) xs

/-- `uniqBy(arr, idFn)`: keep the first occurrence of each key. -/
def uniqBy {α κ : Type} [DecidableEq κ] (arr : List α) (idFn : α → κ) : List α :=
  uniqByAux idFn [] arr

/-- Decimal rendering padded to 2 digits (for non-negative inputs). -/
def pad2 (n : Int) : String :=
  let m := n.toNat
  if m < 10 then "0" ++ toString m else toString m

/-- Decimal rendering padded to 3 digits. -/
def pad3 (n : Int) : String :=
  let m := n.toNat
  if m < 10 then "00" ++ toString m
  else if m < 100 then "0" ++ toString m
  else toString m

/-- Decimal rendering padded to 4 digits. -/
def pad4 (n : Int) : String :=
  let m := n.toNat
  if m < 10 then "000" ++ toString m
  else if m < 100 then "00" ++ toString m
  else if m < 1000 then "0" ++ toString m
  else toString m

/-- Civil date (year, month, day) of a day number counted from 1970-01-01,
the standard proleptic-Gregorian conversion used by date libraries. -/
def civilFromDays (z0 : Int) : Int × Int × Int :=
  let z := z0 + 719468
  let era := z / 146097
  let doe := z - era * 146097
  let yoe := (doe - doe / 1460 + doe / 36524 - doe / 146096) / 365
  let y := yoe + era * 400
  let doy := doe - (365 * yoe + yoe / 4 - yoe / 100)
  let mp := (5 * doy + 2) / 153
  let d := doy - (153 * mp + 2) / 5 + 1
  let m := mp + (if mp < 10 then 3 else -9)
  (y + (if m ≤ 2 then 1 else 0), m, d)

/-- The fixed-offset suffix of a luxon ISO rendering, e.g. `+01:00`. -/
def offsetSuffix (ofsMin : Int) : String :=
  if ofsMin < 0 then
    "-" ++ pad2 ((-ofsMin) / 60) ++ ":" ++ pad2 ((-ofsMin) % 60)
  else
    "+" ++ pad2 (ofsMin / 60) ++ ":" ++ pad2 (ofsMin % 60)

/-- Model of luxon `DateTime.toISO()` for an instant `t` (ms since epoch)
carried in a zone with fixed offset `ofsMin` minutes, as used by the
events' display timezone when the dedup key is built. -/
def toISO (ofsMin t : Int) : String :=
  let locTime := t + ofsMin * msPerMinute
  let days := locTime / msPerDay
  let rem := locTime - days * msPerDay
  let ymd := civilFromDays days
  pad4 ymd.1 ++ "-" ++ pad2 ymd.2.1 ++ "-" ++ pad2 ymd.2.2 ++ "T" ++
    pad2 (rem / msPerHour) ++ ":" ++ pad2 ((rem / msPerMinute) % 60) ++ ":" ++
    pad2 ((rem / 1000) % 60) ++ "." ++ pad3 (rem % 1000) ++ offsetSuffix ofsMin

/-- The dedup identity key of the source:
``e.title + "|" + e.start.toISO() + "|" + (e.location || "")``.
(`e.location || ""` is `e.location` itself, since an empty location is
already the empty string.) -/
def eventKey (ofsMin : Int) (e : Event) : String :=
  e.title ++ "|" ++ toISO ofsMin e.start ++ "|" ++ e.location

/-- `uniqBy(allNormalised(), e => ...)`: the dedup pass of the pipeline,
parametrised by the display zone's offset used by `toISO`. -/
def dedupeEvents (ofsMin : Int) (evs : List Event) : List Event :=
  uniqBy evs (eventKey ofsMin)

/-- The UTC calendar date of an instant, as a day number since 1970-01-01.
This is what `[s.year, s.month, s.day]` of `e.start.setZone("utc")` encodes
(day numbers are in bijection with calendar dates). -/
def utcDayNumber (t : Int) : Int := t / msPerDay

/-- Encoded start date of an all-day event: the `ics` entry carries
`start: [s.year, s.month, s.day]` of the UTC view of the canonical start. -/
def icsAllDayStartDay (e : Event) : Int := utcDayNumber e.start

/-- Encoded end date of an all-day event: `end: [en.year, en.month, en.day]`
of the UTC view of the canonical end — the components of the canonical end
itself, with no extra day added by the encoder. -/
def icsAllDayEndDay (e : Event) : Int := utcDayNumber e.endTime

/-- The instant that decoding the produced artifact gives back for an
event's DTSTART.  A timed event is encoded as `[y, m, d, hh, mm]` of its
UTC start (seconds dropped), an all-day event as `[y, m, d]`; `node-ical`
rebuilds a JS `Date` from these components, so the round trip floors the
start to the minute (timed) or to the UTC day (all-day). -/
def roundTripStart (e : Event) : Int :=
  if e.allDay then msPerDay * (e.start / msPerDay)
  else msPerMinute * (e.start / msPerMinute)

/-- `within(d)` of `validateAgainstSource`:
`d >= start.toJSDate() && d <= end.toJSDate()` (instant comparison). -/
def icsWithin (ws we d : Int) : Bool := decide (ws ≤ d ∧ d ≤ we)

/-- The decoded events that `validateAgainstSource` keeps:
`icsEvents.filter(v => within(v.start))`, over the decoded DTSTART instants. -/
def icsWindowOf (decodedStarts : List Int) (ws we : Int) : List Int :=
  decodedStarts.filter (icsWithin ws we)

/-- `w1src` of the expected-split check: source-window events starting
strictly before `start.plus({days: 7})`. -/
def srcWeek1 (events : List Event) (ws we : Int) : List Event :=
  (filterWindow events ws we).filter (fun e => decide (e.start < ws + 7 * msPerDay))

/-- `w2src`: source-window events starting at or after the week boundary. -/
def srcWeek2 (events : List Event) (ws we : Int) : List Event :=
  (filterWindow events ws we).filter (fun e => decide (ws + 7 * msPerDay ≤ e.start))

/-- `w1ics`: decoded-window starts strictly before the week boundary. -/
def icsWeek1 (decodedStarts : List Int) (ws we : Int) : List Int :=
  (icsWindowOf decodedStarts ws we).filter (fun d => decide (d < ws + 7 * msPerDay))

/-- `w2ics`: decoded-window starts at or after the week boundary. -/
def icsWeek2 (decodedStarts : List Int) (ws we : Int) : List Int :=
  (icsWindowOf decodedStarts ws we).filter (fun d => decide (ws + 7 * msPerDay ≤ d))

/-- The distinct failure modes of `validateAgainstSource`, one per `throw`. -/
inductive ValidationResult
  | ok
  | countMismatch
  | srcSplitMismatch
  | icsSplitMismatch
deriving DecidableEq, Repr

/-- `validateAgainstSource(events, icsText, start, end)` with the parsed
VEVENT starts of `icsText` passed as `decodedStarts` (parsing itself is the
external `node-ical` collaborator):

```js
const srcWindow = events.filter(e => e.start < end && e.end > start);
const icsWindow = icsEvents.filter(v => within(v.start));
if (icsWindow.length !== srcWindow.length) throw ...;
if (cfg.expectedCounts) {
  ... w1src/w2src vs expected, then w1ics/w2ics vs expected ...
}
```
-/
def validateAgainstSource (expected : Option (Nat × Nat)) (events : List Event)
    (decodedStarts : List Int) (ws we : Int) : ValidationResult :=
  let srcWindow := filterWindow events ws we
  let icsWindow := icsWindowOf decodedStarts ws we
  if icsWindow.length ≠ srcWindow.length then .countMismatch
  else
    match expected with
    | none => .ok
    | some (wk1, wk2) =>
      if (srcWeek1 events ws we).length ≠ wk1 ∨ (srcWeek2 events ws we).length ≠ wk2 then
        .srcSplitMismatch
      else if (icsWeek1 decodedStarts ws we).length ≠ wk1 ∨
          (icsWeek2 decodedStarts ws we).length ≠ wk2 then
        .icsSplitMismatch
      else .ok

/-- `cfg.sanity` as consumed by the main run. -/
structure SanityCfg where
  minEvents : Nat
  protectLastGood : Bool
deriving DecidableEq, Repr

/-- Contents of the three files the run touches (`none` = file absent). -/
structure PublishFS where
  output : Option String
  outputJson : Option String
  lastGood : Option String
deriving DecidableEq, Repr

/-- Final file-system state and process exit status of a run. -/
structure RunResult where
  fs : PublishFS
  exitCode : Nat
deriving DecidableEq, Repr

/-- The publish/validate/rollback tail of the main IIFE, starting after
`scrape()` and `filterWindow` have produced `events`:

```js
if ((events.length || 0) < (cfg.sanity?.minEvents ?? 1)) throw ...;   // exit != 0
const icsText = await writeICS(icsEvents, cfg.outputPath);            // write output
fs.writeFileSync(cfg.outputJsonPath, JSON.stringify(events, null, 2));
try {
  validateAgainstSource(events, icsText, start, end);
  console.log(...);
} catch (err) {
  if (cfg.sanity?.protectLastGood && fs.existsSync(cfg.sanity.lastGoodPath)) {
    fs.copyFileSync(cfg.sanity.lastGoodPath, cfg.outputPath);         // rollback
  }
  process.exit(1);
}
if (cfg.sanity?.protectLastGood) {
  fs.copyFileSync(cfg.outputPath, cfg.sanity.lastGoodPath);           // update last-good
}
```

`icsText`/`jsonText` abstract the externally produced serialisations; an
uncaught throw makes the node process exit with a non-zero status. -/
def runPublish (sanity : SanityCfg) (expected : Option (Nat × Nat)) (fs0 : PublishFS)
    (events : List Event) (decodedStarts : List Int) (icsText jsonText : String)
    (ws we : Int) : RunResult :=
  if events.length < sanity.minEvents then
    { fs := fs0, exitCode := 1 }
  else
    let fs1 : PublishFS := { fs0 with output := some icsText, outputJson := some jsonText }
    match validateAgainstSource expected events decodedStarts ws we with
    | .ok =>
      if sanity.protectLastGood then
        { fs := { fs1 with lastGood := some icsText }, exitCode := 0 }
      else
        { fs := fs1, exitCode := 0 }
    | _ =>
      if sanity.protectLastGood then
        match fs0.lastGood with
        | some g => { fs := { fs1 with output := some g }, exitCode := 1 }
        | none => { fs := fs1, exitCode := 1 }
      else
        { fs := fs1, exitCode := 1 }

/-- The external world as the navigation loops observe it, indexed by a
global step counter: whether the wall-clock watchdog has not yet fired,
whether coverage of the window start/end bound is proven, whether the
attempted navigation click actually moved the view, and the accumulated
normalised-event count. -/
structure NavEnv where
  timeOk : Nat → Bool
  okStart : Nat → Bool
  okEnd : Nat → Bool
  movedPrev : Nat → Bool
  movedNext : Nat → Bool
  count : Nat → Nat

/-- Why a navigation loop stopped. -/
inductive StopReason
  | timeUp
  | budget
  | covered
  | noMove
  | staleStop
deriving DecidableEq, Repr

/-- Mutable state of the guarded loops in `scripts/scrape-and-build-ics.mjs`
(`iterations`, `stale`, `lastCount` are shared between the two loops). -/
structure IterState where
  iterations : Nat
  stale : Nat
  lastCount : Nat
  tick : Nat
deriving DecidableEq, Repr

/-- One guarded loop of the scripts variant:

```js
while (Date.now() < watchdogEnds && iterations < MAX_ITER) {
  iterations++;
  const { ok, count } = coverage();
  if (ok) break;
  const moved = await clickWeekNav(page, dir);
  if (!moved) break;
  if (count === lastCount) stale++; else stale = 0;
  lastCount = count;
  if (stale >= MAX_STALE) break;
}
```

The recursion carries explicit fuel and answers `none` when the fuel runs
out before any exit condition fires, so termination is a theorem rather
than an assumption. -/
def runGuardedLoop (timeOk ok moved : Nat → Bool) (count : Nat → Nat)
    (maxIter maxStale : Nat) : Nat → IterState → Option (IterState × StopReason)
  | 0, _ => none
  | fuel + 1, st =>
    if !timeOk st.tick then some (st, .timeUp)
    else if maxIter ≤ st.iterations then some (st, .budget)
    else
      let st1 : IterState := { st with iterations := st.iterations + 1 }
      if ok st.tick then some (st1, .covered)
      else if !moved st.tick then some (st1, .noMove)
      else
        let c := count st.tick
        let stale1 := if c = st1.lastCount then st1.stale + 1 else 0
        let st2 : IterState := { st1 with stale := stale1, lastCount := c, tick := st.tick + 1 }
        if maxStale ≤ stale1 then some (st2, .staleStop)
        else runGuardedLoop timeOk ok moved count maxIter maxStale fuel st2

/-- The full navigation phase of `scripts/scrape-and-build-ics.mjs`
(lines 214–247): the backward loop, then `stale = 0`, then the forward
loop, with `MAX_ITER = 20` shared between the loops, `MAX_STALE = 5` and
the wall-clock watchdog.  Fuel 21 exceeds the shared iteration budget. -/
def navigateScripts (env : NavEnv) : Option (IterState × StopReason × StopReason) :=
  match runGuardedLoop env.timeOk env.okStart env.movedPrev env.count 20 5 21
      { iterations := 0, stale := 0, lastCount := 0, tick := 0 } with
  | none => none
  | some (st, r1) =>
    match runGuardedLoop env.timeOk env.okEnd env.movedNext env.count 20 5 21
        { st with stale := 0 } with
    | none => none
    | some (st2, r2) => some (st2, r1, r2)

/-- One budget loop of the `MAX_PREV`/`MAX_NEXT` variant:

```js
for (;;) {
  const { ok } = coverage();
  if (ok || moves >= MAX) break;
  const moved = await clickBtn(page, dir);
  if (!moved) break;
  moves++;
}
```

Returns the number of successful moves and the next tick, or `none` if the
fuel runs out first. -/
def runBudgetLoop (ok moved : Nat → Bool) (maxSteps : Nat) :
    Nat → Nat → Nat → Option (Nat × Nat)
  | 0, _, _ => none
  | fuel + 1, moves, tick =>
    if ok tick || maxSteps ≤ moves then some (moves, tick)
    else if !moved tick then some (moves, tick + 1)
    else runBudgetLoop ok moved maxSteps fuel (moves + 1) (tick + 1)

/-- The navigation phase of the `MAX_PREV`/`MAX_NEXT` variant
(`let prevMoves = 0, nextMoves = 0; const MAX_PREV = 8, MAX_NEXT = 12;`):
the backward loop then the forward loop, returning both move counters. -/
def navigatePart (env : NavEnv) : Option (Nat × Nat) :=
  match runBudgetLoop env.okStart env.movedPrev 8 9 0 0 with
  | none => none
  | some (prevMoves, tick) =>
    match runBudgetLoop env.okEnd env.movedNext 12 13 0 tick with
    | none => none
    | some (nextMoves, _) => some (prevMoves, nextMoves)

/-! ### Concrete inputs used by individual claims -/

/-- A timed event that overlaps the window from before: it starts one
minute before the window opens and ends inside it. -/
def c1CexEvent : Event :=
  { title := "Overlap", location := "", description := "", url := none,
    allDay := false, start := -60000, endTime := 3600000 }

/-- A timed event squarely inside the window, with a whole-minute start. -/
def c1WitEvent : Event :=
  { title := "InWindow", location := "", description := "", url := none,
    allDay := false, start := 60000, endTime := 120000 }

/-- A raw record whose start parses (2025-09-01T08:00:00Z) but whose end
field is present and unparsable. -/
def c2BadRecord : RawRecord :=
  { title := some "Assembly", startVal := some (.isoParsed 1756713600000),
    endVal := some .isoInvalid }

/-- An event whose presence makes the round-trip validation fail when the
decoded artifact is empty. -/
def c3WitEvent : Event :=
  { title := "X", location := "", description := "", url := none,
    allDay := false, start := 10, endTime := 20 }

/-- A single-day all-day event on 2025-09-01 (UTC): canonical end is the
start of the next day. -/
def c5WitEvent : Event :=
  { title := "Bank Holiday", location := "", description := "", url := none,
    allDay := true, start := 1756684800000, endTime := 1756771200000 }

/-- An event whose end abuts the window start exactly. -/
def c6WitEvent : Event :=
  { title := "Abutting", location := "", description := "", url := none,
    allDay := false, start := -5, endTime := 0 }

/-- First event of the dedup-key collision: its title embeds the separator
and an ISO timestamp. -/
def c7CexA : Event :=
  { title := "A|" ++ toISO 0 0, location := "", description := "", url := none,
    allDay := false, start := 0, endTime := 3600000 }

/-- Second event of the dedup-key collision: a different identity triple
(title `"A"`, location embedding the ISO text and separator) whose joined
key string is nevertheless identical to `c7CexA`'s. -/
def c7CexB : Event :=
  { title := "A", location := toISO 0 0 ++ "|", description := "after-school",
    url := none, allDay := false, start := 0, endTime := 7200000 }

/-- A raw record with a parsable start and no end field at all. -/
def c8WitRecord : RawRecord :=
  { title := some "Choir", startVal := some (.millis 500) }

/-- The canonical event `c8WitRecord` normalises to. -/
def c8WitEvent : NEvent :=
  { title := "Choir", location := "", description := "", url := none,
    allDay := false, start := 500, endTime := .valid 3600500 }

/-- A week-1 event of the expected-split scenario (starts 1s into the
window). -/
def c9Week1Event : Event :=
  { title := "Week1", location := "", description := "", url := none,
    allDay := false, start := 1000, endTime := 2000 }

/-- A week-2 event of the expected-split scenario (starts 1s after the
7-day boundary). -/
def c9Week2Event : Event :=
  { title := "Week2", location := "", description := "", url := none,
    allDay := false, start := 604801000, endTime := 604802000 }

/-- Source canonical set of the expected-split scenario: 20 week-1 events
and 15 week-2 events (total 35). -/
def c9Events : List Event :=
  List.replicate 20 c9Week1Event ++ List.replicate 15 c9Week2Event

/-- Decoded DTSTART instants of the expected-split scenario: 19 week-1
starts and 16 week-2 starts — total still 35, but the week-1 count is 19. -/
def c9Decoded : List Int :=
  List.replicate 19 1000 ++ List.replicate 16 604801000

/-- First occurrence of a duplicated identity triple, with its own
description/url/allDay/end values. -/
def c10FirstEvent : Event :=
  { title := "Sports Day", location := "Field", description := "", url := none,
    allDay := false, start := 1000, endTime := 2000 }

/-- Second occurrence: same (title, start, location) triple as
`c10FirstEvent` but different description, url, allDay flag and end. -/
def c10SecondEvent : Event :=
  { title := "Sports Day", location := "Field", description := "Bring water",
    url := some "https://example.org/sports", allDay := true, start := 1000,
    endTime := 5000 }

/-! ### Helper lemmas about `uniqBy` -/

theorem uniqByAux_congr_seen {α κ : Type} [DecidableEq κ] (f : α → κ) :
    ∀ (xs : List α) (s₁ s₂ : List κ), (∀ k, k ∈ s₁ ↔ k ∈ s₂) →
      uniqByAux f s₁ xs = uniqByAux f s₂ xs := by
  intro xs
  induction xs with
  | nil => intro s₁ s₂ _; rfl
  | cons x xs ih =>
    intro s₁ s₂ h
    by_cases hx : f x ∈ s₁
    · have hx₂ : f x ∈ s₂ := (h (f x)).mp hx
      simp only [uniqByAux, if_pos hx, if_pos hx₂]
      exact ih s₁ s₂ h
    · have hx₂ : f x ∉ s₂ := fun hc => hx ((h (f x)).mpr hc)
      simp only [uniqByAux, if_neg hx, if_neg hx₂]
      refine congrArg (x :: ·) (ih _ _ ?_)
      intro k
      simp only [List.mem_cons]
      exact or_congr Iff.rfl (h k)

theorem uniqByAux_sublist {α κ : Type} [DecidableEq κ] (f : α → κ) :
    ∀ (xs : List α) (seen : List κ), (uniqByAux f seen xs).Sublist xs := by
  intro xs
  induction xs with
  | nil => intro seen; simp [uniqByAux]
  | cons x xs ih =>
    intro seen
    by_cases hx : f x ∈ seen
    · simp only [uniqByAux, if_pos hx]
      exact (ih seen).cons x
    · simp only [uniqByAux, if_neg hx]
      exact (ih (f x :: seen)).cons₂ x

theorem uniqByAux_keys_nodup {α κ : Type} [DecidableEq κ] (f : α → κ) :
    ∀ (xs : List α) (seen : List κ),
      ((uniqByAux f seen xs).map f).Nodup ∧ ∀ y ∈ uniqByAux f seen xs, f y ∉ seen := by
  intro xs
  induction xs with
  | nil => intro seen; simp [uniqByAux]
  | cons x xs ih =>
    intro seen
    by_cases hx : f x ∈ seen
    · simp only [uniqByAux, if_pos hx]
      exact ih seen
    · simp only [uniqByAux, if_neg hx, List.map_cons, List.nodup_cons]
      obtain ⟨hnd, hmem⟩ := ih (f x :: seen)
      refine ⟨⟨?_, hnd⟩, ?_⟩
      · intro hc
        obtain ⟨y, hy, hfy⟩ := List.mem_map.mp hc
        exact hmem y hy (hfy ▸ List.mem_cons_self _ _)
      · intro y hy
        rcases List.mem_cons.mp hy with h | h
        · exact h ▸ hx
        · intro hc
          exact hmem y h (List.mem_cons_of_mem _ hc)

theorem uniqByAux_eq_self {α κ : Type} [DecidableEq κ] (f : α → κ) :
    ∀ (xs : List α) (seen : List κ), (∀ x ∈ xs, f x ∉ seen) → (xs.map f).Nodup →
      uniqByAux f seen xs = xs := by
  intro xs
  induction xs with
  | nil => intro seen _ _; rfl
  | cons x xs ih =>
    intro seen hseen hnd
    have hx : f x ∉ seen := hseen x (List.mem_cons_self _ _)
    simp only [uniqByAux, if_neg hx]
    simp only [List.map_cons, List.nodup_cons] at hnd
    refine congrArg (x :: ·) (ih _ ?_ hnd.2)
    intro y hy
    intro hc
    rcases List.mem_cons.mp hc with h | h
    · exact hnd.1 (h ▸ List.mem_map_of_mem f hy)
    · exact hseen y (List.mem_cons_of_mem _ hy) h

theorem uniqByAux_nil_of_seen {α κ : Type} [DecidableEq κ] (f : α → κ) :
    ∀ (xs : List α) (seen : List κ), (∀ x ∈ xs, f x ∈ seen) →
      uniqByAux f seen xs = [] := by
  intro xs
  induction xs with
  | nil => intro seen _; rfl
  | cons x xs ih =>
    intro seen h
    have hx : f x ∈ seen := h x (List.mem_cons_self _ _)
    simp only [uniqByAux, if_pos hx]
    exact ih seen (fun y hy => h y (List.mem_cons_of_mem _ hy))

theorem uniqByAux_append {α κ : Type} [DecidableEq κ] (f : α → κ) :
    ∀ (xs ys : List α) (seen : List κ),
      uniqByAux f seen (xs ++ ys) =
        uniqByAux f seen xs ++ uniqByAux f (xs.map f ++ seen) ys := by
  intro xs
  induction xs with
  | nil => intro ys seen; simp [uniqByAux]
  | cons x xs ih =>
    intro ys seen
    by_cases hx : f x ∈ seen
    · simp only [List.cons_append, uniqByAux, if_pos hx, List.append_eq]
      rw [ih ys seen]
      refine congrArg _ (uniqByAux_congr_seen f ys _ _ ?_)
      intro k
      simp only [List.map_cons, List.cons_append, List.mem_cons]
      constructor
      · intro h; exact Or.inr h
      · rintro (h | h)
        · exact h ▸ (List.mem_append.mpr (Or.inr hx))
        · exact h
    · simp only [List.cons_append, uniqByAux, if_neg hx, List.append_eq]
      rw [ih ys (f x :: seen)]
      refine congrArg (x :: ·) (congrArg _ (uniqByAux_congr_seen f ys _ _ ?_))
      intro k
      simp only [List.map_cons, List.cons_append, List.mem_cons, List.mem_append]
      tauto

theorem uniqByAux_keys_cover {α κ : Type} [DecidableEq κ] (f : α → κ) :
    ∀ (xs : List α) (seen : List κ) (x : α), x ∈ xs → f x ∉ seen →
      f x ∈ (uniqByAux f seen xs).map f := by
  intro xs
  induction xs with
  | nil => intro seen x hx; exact absurd hx (List.not_mem_nil x)
  | cons y xs ih =>
    intro seen x hx hns
    by_cases hy : f y ∈ seen
    · simp only [uniqByAux, if_pos hy]
      rcases List.mem_cons.mp hx with h | h
      · exact absurd (h ▸ hns) (fun hc => hc hy)
      · exact ih seen x h hns
    · simp only [uniqByAux, if_neg hy, List.map_cons, List.mem_cons]
      rcases List.mem_cons.mp hx with h | h
      · exact Or.inl (h ▸ rfl)
      · by_cases hfxy : f x = f y
        · exact Or.inl hfxy
        · refine Or.inr (ih _ x h ?_)
          intro hc
          rcases List.mem_cons.mp hc with h' | h'
          · exact hfxy h'
          · exact hns h'

theorem uniqByAux_drop_dup {α κ : Type} [DecidableEq κ] (f : α → κ) :
    ∀ (mid : List α) (seen : List κ) (y : α) (rest : List α),
      (f y ∈ seen ∨ f y ∈ mid.map f) →
      uniqByAux f seen (mid ++ y :: rest) = uniqByAux f seen (mid ++ rest) := by
  intro mid
  induction mid with
  | nil =>
    intro seen y rest h
    rcases h with h | h
    · simp only [List.nil_append, uniqByAux, if_pos h]
    · exact absurd h (by simp)
  | cons m mid ih =>
    intro seen y rest h
    by_cases hm : f m ∈ seen
    · simp only [List.cons_append, uniqByAux, if_pos hm]
      refine ih seen y rest ?_
      rcases h with h | h
      · exact Or.inl h
      · simp only [List.map_cons, List.mem_cons] at h
        rcases h with h | h
        · exact Or.inl (h ▸ hm)
        · exact Or.inr h
    · simp only [List.cons_append, uniqByAux, if_neg hm]
      refine congrArg (m :: ·) (ih _ y rest ?_)
      rcases h with h | h
      · exact Or.inl (List.mem_cons_of_mem _ h)
      · simp only [List.map_cons, List.mem_cons] at h
        rcases h with h | h
        · exact Or.inl (h ▸ List.mem_cons_self _ _)
        · exact Or.inr h

/-! ### Helper lemmas about the navigation loops -/

theorem runGuardedLoop_total (timeOk ok moved : Nat → Bool) (count : Nat → Nat)
    (maxIter maxStale : Nat) :
    ∀ (fuel : Nat) (st : IterState), maxIter - st.iterations < fuel →
      ∃ st' r, runGuardedLoop timeOk ok moved count maxIter maxStale fuel st = some (st', r) ∧
        (st.iterations ≤ maxIter → st'.iterations ≤ maxIter) := by
  intro fuel
  induction fuel with
  | zero => intro st h; exact absurd h (Nat.not_lt_zero _)
  | succ fuel ih =>
    intro st hfuel
    cases htime : timeOk st.tick with
    | false =>
      exact ⟨st, .timeUp, by simp [runGuardedLoop, htime], fun h => h⟩
    | true =>
      by_cases hiter : maxIter ≤ st.iterations
      · exact ⟨st, .budget, by simp [runGuardedLoop, htime, hiter], fun h => h⟩
      · cases hok : ok st.tick with
        | true =>
          refine ⟨⟨st.iterations + 1, st.stale, st.lastCount, st.tick⟩, .covered,
            by simp [runGuardedLoop, htime, hiter, hok], fun _ => ?_⟩
          show st.iterations + 1 ≤ maxIter
          omega
        | false =>
          cases hmv : moved st.tick with
          | false =>
            refine ⟨⟨st.iterations + 1, st.stale, st.lastCount, st.tick⟩, .noMove,
              by simp [runGuardedLoop, htime, hiter, hok, hmv], fun _ => ?_⟩
            show st.iterations + 1 ≤ maxIter
            omega
          | true =>
            have hstep : runGuardedLoop timeOk ok moved count maxIter maxStale (fuel + 1) st =
                (if maxStale ≤ (if count st.tick = st.lastCount then st.stale + 1 else 0) then
                  some (⟨st.iterations + 1,
                    (if count st.tick = st.lastCount then st.stale + 1 else 0),
                    count st.tick, st.tick + 1⟩, .staleStop)
                else runGuardedLoop timeOk ok moved count maxIter maxStale fuel
                  ⟨st.iterations + 1,
                    (if count st.tick = st.lastCount then st.stale + 1 else 0),
                    count st.tick, st.tick + 1⟩) := by
              simp [runGuardedLoop, htime, hiter, hok, hmv]
            by_cases hst : maxStale ≤ (if count st.tick = st.lastCount then st.stale + 1 else 0)
            · refine ⟨_, .staleStop, by rw [hstep, if_pos hst], fun _ => ?_⟩
              show st.iterations + 1 ≤ maxIter
              omega
            · obtain ⟨st', r, heq, hb⟩ := ih
                ⟨st.iterations + 1,
                  (if count st.tick = st.lastCount then st.stale + 1 else 0),
                  count st.tick, st.tick + 1⟩ (by show maxIter - (st.iterations + 1) < fuel; omega)
              refine ⟨st', r, ?_, fun _ => hb (by show st.iterations + 1 ≤ maxIter; omega)⟩
              rw [hstep, if_neg hst]
              exact heq

theorem runBudgetLoop_total (ok moved : Nat → Bool) (maxSteps : Nat) :
    ∀ (fuel moves tick : Nat), maxSteps - moves < fuel →
      ∃ m t, runBudgetLoop ok moved maxSteps fuel moves tick = some (m, t) ∧
        (moves ≤ maxSteps → m ≤ maxSteps) := by
  intro fuel
  induction fuel with
  | zero => intro moves tick h; exact absurd h (Nat.not_lt_zero _)
  | succ fuel ih =>
    intro moves tick hfuel
    by_cases hstop : ok tick || maxSteps ≤ moves
    · exact ⟨moves, tick, by simp [runBudgetLoop, hstop], fun h => h⟩
    · cases hmv : moved tick with
      | false =>
        exact ⟨moves, tick + 1, by simp [runBudgetLoop, hstop, hmv], fun h => h⟩
      | true =>
        have hlt : moves < maxSteps := by
          simp only [Bool.or_eq_true, decide_eq_true_eq] at hstop
          push_neg at hstop
          omega
        obtain ⟨m, t, heq, hb⟩ := ih (moves + 1) (tick + 1) (by omega)
        exact ⟨m, t, by simp [runBudgetLoop, hstop, hmv, heq], fun _ => hb (by omega)⟩

/-! ### Claim theorems -/

/-- Claim C6: for every canonical event and every window, `filterWindow`
keeps the event iff `event.start < window.end` and `event.end >
window.start`; an event exactly abutting the boundary
(`event.end = window.start`) is excluded, as is any event fully before or
fully after the window. -/
theorem c6_window_filter (all : List Event) (ws we : Int) (ev : Event) :
    (ev ∈ filterWindow all ws we ↔ (ev ∈ all ∧ ev.start < we ∧ ws < ev.endTime)) ∧
    (ev.endTime = ws → ev ∉ filterWindow all ws we) ∧
    ((ev.endTime ≤ ws ∨ we ≤ ev.start) → ev ∉ filterWindow all ws we) := by
  have hmem : ev ∈ filterWindow all ws we ↔ (ev ∈ all ∧ ev.start < we ∧ ws < ev.endTime) := by
    simp [filterWindow, List.mem_filter, and_assoc]
  refine ⟨hmem, ?_, ?_⟩
  · intro h hc
    have h2 := (hmem.mp hc).2.2
    omega
  · intro h hc
    have h2 := (hmem.mp hc).2
    omega

/-- Witness for C6: an event whose end equals the window start is not kept
by the window filter. -/
theorem c6_window_filter_witness : c6WitEvent ∉ filterWindow [c6WitEvent] 0 10 :=
  (c6_window_filter [c6WitEvent] 0 10 c6WitEvent).2.1 rfl

/-- Claim C7 (amended): deduplication keeps exactly one representative per
distinct *serialised key* `title + "|" + startISO + "|" + location` (which
coincides with the identity triple only when no title/location smuggles in
the `"|"` separator — see the counterexample), preserves the order of first
occurrence (the output is a sublist of the input whose keys are exactly the
input's distinct keys, without repetition), and is idempotent:
`dedupe (dedupe xs) = dedupe xs` and `dedupe (xs ++ xs) = dedupe xs`. -/
theorem c7_dedupe_idempotent (ofsMin : Int) (xs : List Event) :
    dedupeEvents ofsMin (dedupeEvents ofsMin xs) = dedupeEvents ofsMin xs ∧
    dedupeEvents ofsMin (xs ++ xs) = dedupeEvents ofsMin xs ∧
    (dedupeEvents ofsMin xs).Sublist xs ∧
    ((dedupeEvents ofsMin xs).map (eventKey ofsMin)).Nodup ∧
    (∀ x ∈ xs, eventKey ofsMin x ∈ (dedupeEvents ofsMin xs).map (eventKey ofsMin)) := by
  have hkeys := uniqByAux_keys_nodup (eventKey ofsMin) xs []
  refine ⟨?_, ?_, uniqByAux_sublist _ xs [], hkeys.1, ?_⟩
  · exact uniqByAux_eq_self _ _ [] (fun x _ => List.not_mem_nil _) hkeys.1
  · show uniqByAux (eventKey ofsMin) [] (xs ++ xs) = uniqByAux (eventKey ofsMin) [] xs
    rw [uniqByAux_append]
    rw [uniqByAux_nil_of_seen (eventKey ofsMin) xs (xs.map (eventKey ofsMin) ++ [])
      (fun x hx => List.mem_append.mpr (Or.inl (List.mem_map_of_mem _ hx)))]
    exact List.append_nil _
  · intro x hx
    exact uniqByAux_keys_cover _ xs [] x hx (List.not_mem_nil _)

/-- Witness for C7: deduplicating an already-deduplicated concrete list
returns it unchanged. -/
theorem c7_dedupe_idempotent_witness :
    dedupeEvents 0 (dedupeEvents 0 [c10FirstEvent]) = dedupeEvents 0 [c10FirstEvent] :=
  (c7_dedupe_idempotent 0 [c10FirstEvent]).1

/-- Counterexample to claim C7 as stated: `c7CexA` and `c7CexB` have
distinct identity triples (their titles differ), yet the unescaped joined
key strings coincide, so deduplication keeps only one representative for
two distinct triples. -/
theorem c7_dedupe_cex :
    dedupeEvents 0 [c7CexA, c7CexB] = [c7CexA] ∧
    (c7CexA.title, c7CexA.start, c7CexA.location) ≠
      (c7CexB.title, c7CexB.start, c7CexB.location) := by
  constructor
  · decide
  · decide

/-- Claim C10 (implicit): the dedup identity key is built only from title,
the start instant's ISO form and location, so a later event agreeing with
an earlier one on those three fields is merged away — whatever its
description, url, allDay flag or end — and the retained representative is
the first occurrence with all of its own field values. -/
theorem c10_dedupe_key_fields (ofsMin : Int) (e1 e2 : Event) (mid rest : List Event)
    (ht : e1.title = e2.title) (hs : e1.start = e2.start) (hl : e1.location = e2.location) :
    dedupeEvents ofsMin (e1 :: (mid ++ e2 :: rest)) =
      dedupeEvents ofsMin (e1 :: (mid ++ rest)) ∧
    (dedupeEvents ofsMin (e1 :: (mid ++ e2 :: rest))).head? = some e1 := by
  have hkey : eventKey ofsMin e2 = eventKey ofsMin e1 := by
    simp [eventKey, ht, hs, hl]
  have hhead : ∀ tail : List Event, dedupeEvents ofsMin (e1 :: tail) =
      e1 :: uniqByAux (eventKey ofsMin) [eventKey ofsMin e1] tail := by
    intro tail
    simp [dedupeEvents, uniqBy, uniqByAux]
  rw [hhead, hhead]
  refine ⟨congrArg (e1 :: ·) ?_, rfl⟩
  exact uniqByAux_drop_dup _ mid _ e2 rest (Or.inl (hkey ▸ List.mem_cons_self _ _))

/-- Witness for C10: the two concrete events share the identity triple but
differ in description, url, allDay and end; dedup merges them and keeps the
first occurrence. -/
theorem c10_dedupe_key_fields_witness :
    dedupeEvents 0 [c10FirstEvent, c10SecondEvent] = dedupeEvents 0 [c10FirstEvent] ∧
    (dedupeEvents 0 [c10FirstEvent, c10SecondEvent]).head? = some c10FirstEvent :=
  c10_dedupe_key_fields 0 c10FirstEvent c10SecondEvent [] [] rfl rfl rfl

/-- Claim C2 — the code contradicts the claimed invariant: a raw record
whose start parses but whose end field is present and unparsable is *not*
skipped and *not* repaired.  The invalid end is truthy (so the missing-end
default does not fire) and compares `NaN <= start` as false (so the
inversion repair does not fire either), and the record is emitted with an
invalid end, for which `end > start` does not hold. -/
theorem c2_end_repair_bug :
    normaliseFromJSON [c2BadRecord] =
      [{ title := "Assembly", location := "", description := "", url := none,
         allDay := false, start := 1756713600000, endTime := .invalid }] ∧
    ∀ ev ∈ normaliseFromJSON [c2BadRecord], jsLT (.valid ev.start) ev.endTime = false := by
  constructor
  · decide
  · decide

/-- Claim C8: for a raw record with a parsable start `ts`, an absent end
field yields `end = ts + 1 hour` and a present, parsed end `u ≤ ts` yields
`end = ts + 30 minutes`; concretely, `{title: "Assembly", start:
"2025-09-01T08:00:00Z"}` with no end normalises to end
`2025-09-01T09:00:00Z`. -/
theorem c8_end_default_and_override :
    (∀ (r : RawRecord) (ts : Int) (ev : NEvent),
      (r.startVal = some (.isoParsed ts) ∨ r.startVal = some (.millis ts)) →
      normaliseRecord r = some ev →
      (r.endVal = none → ev.endTime = .valid (ts + msPerHour)) ∧
      (∀ u : Int, (r.endVal = some (.isoParsed u) ∨ r.endVal = some (.millis u)) →
        u ≤ ts → ev.endTime = .valid (ts + msPerHalfHour))) ∧
    normaliseFromJSON
        [{ title := some "Assembly", startVal := some (.isoParsed 1756713600000) }] =
      [{ title := "Assembly", location := "", description := "", url := none,
         allDay := false, start := 1756713600000, endTime := .valid 1756717200000 }] := by
  constructor
  · intro r ts ev hstart hnorm
    have hnolt : ¬(ts + msPerHour ≤ ts) := by simp [msPerHour]
    constructor
    · intro hend
      rcases hstart with h | h <;>
        simp [normaliseRecord, h, hend, parseRawTime, jsLE, hnolt] at hnorm <;>
        simp [← hnorm]
    · intro u hu hle
      rcases hstart with h | h <;> rcases hu with h2 | h2 <;>
        simp [normaliseRecord, h, h2, parseRawTime, jsLE, hle] at hnorm <;>
        simp [← hnorm]
  · decide

/-- Witness for C8: a concrete record with a parsable start and no end
normalises with end `start + 1 hour`. -/
theorem c8_end_default_and_override_witness :
    normaliseRecord c8WitRecord = some c8WitEvent ∧
      c8WitEvent.endTime = .valid (500 + msPerHour) := by
  refine ⟨by decide, ?_⟩
  exact ((c8_end_default_and_override.1 c8WitRecord 500 c8WitEvent (Or.inr rfl)
    (by decide)).1 rfl)

/-- Claim C5: a single-day all-day canonical event — its end already the
start of the next day, i.e. `end = start + 1 day` — is encoded with start
the UTC calendar date `D` of its start instant and end the calendar date
`D + 1`: the exclusive-end convention, with no extra day added on top of
the canonical end. -/
theorem c5_allday_exclusive_end (e : Event) (hall : e.allDay = true)
    (hend : e.endTime = e.start + msPerDay) :
    icsAllDayStartDay e = utcDayNumber e.start ∧
    icsAllDayEndDay e = utcDayNumber e.start + 1 := by
  refine ⟨rfl, ?_⟩
  show e.endTime / msPerDay = e.start / msPerDay + 1
  rw [hend]
  show (e.start + msPerDay) / msPerDay = e.start / msPerDay + 1
  simp only [msPerDay]
  omega

/-- Witness for C5: the 2025-09-01 all-day event encodes as day 20332 to
day 20333 (exclusive). -/
theorem c5_allday_exclusive_end_witness :
    icsAllDayStartDay c5WitEvent = 20332 ∧ icsAllDayEndDay c5WitEvent = 20333 := by
  have h := c5_allday_exclusive_end c5WitEvent rfl (by decide)
  exact ⟨h.1.trans (by decide), h.2.trans (by decide)⟩

/-- Claim C1 (amended): encode-then-decode preserves the windowed count
whenever every event both overlaps the window and has its decoded
(minute- or day-truncated) start inside the *closed* window — the validator
filters the decoded set by start containment (`within`), not by the overlap
predicate used on the source set, so the two filters only agree under this
condition (see the counterexample for an overlapping event starting before
the window). -/
theorem c1_roundtrip_counts (events : List Event) (ws we : Int)
    (h : ∀ e ∈ events, (e.start < we ∧ ws < e.endTime) ∧
      ws ≤ roundTripStart e ∧ roundTripStart e ≤ we) :
    (icsWindowOf (events.map roundTripStart) ws we).length =
      (filterWindow events ws we).length ∧
    validateAgainstSource none events (events.map roundTripStart) ws we = .ok := by
  have hsrc : filterWindow events ws we = events :=
    List.filter_eq_self.mpr (fun e he => decide_eq_true (h e he).1)
  have hics : icsWindowOf (events.map roundTripStart) ws we = events.map roundTripStart :=
    List.filter_eq_self.mpr (fun d hd => by
      obtain ⟨e, he, rfl⟩ := List.mem_map.mp hd
      exact decide_eq_true ⟨(h e he).2.1, (h e he).2.2⟩)
  have hlen : (icsWindowOf (events.map roundTripStart) ws we).length =
      (filterWindow events ws we).length := by
    rw [hsrc, hics, List.length_map]
  refine ⟨hlen, ?_⟩
  simp [validateAgainstSource, hlen]

/-- Witness for C1: a single in-window whole-minute event round-trips with
equal counts and passes validation. -/
theorem c1_roundtrip_counts_witness :
    (icsWindowOf ([c1WitEvent].map roundTripStart) 0 1209600000).length =
      (filterWindow [c1WitEvent] 0 1209600000).length ∧
    validateAgainstSource none [c1WitEvent] ([c1WitEvent].map roundTripStart)
      0 1209600000 = .ok :=
  c1_roundtrip_counts [c1WitEvent] 0 1209600000 (by decide)

/-- Counterexample to claim C1 as stated: an event overlapping the window
but starting one minute before it is kept by the source-side overlap
filter yet dropped by the decoded-side `within` filter, so the counts
differ and validation fails. -/
theorem c1_roundtrip_counts_cex :
    (filterWindow [c1CexEvent] 0 1209600000).length = 1 ∧
    (icsWindowOf ([c1CexEvent].map roundTripStart) 0 1209600000).length = 0 ∧
    validateAgainstSource none [c1CexEvent] ([c1CexEvent].map roundTripStart)
      0 1209600000 = .countMismatch := by
  refine ⟨?_, ?_, ?_⟩ <;> decide

/-- Claim C9: with an expected split configured, the validator passes iff
the total windowed counts match *and* all four per-sub-window counts match
the configured numbers; in particular (second conjunct) a decoded week-1
count of 19 against an expected 20 fails even though the total of 35
matches on both sides. -/
theorem c9_expected_split :
    (∀ (wk1 wk2 : Nat) (events : List Event) (decodedStarts : List Int) (ws we : Int),
      validateAgainstSource (some (wk1, wk2)) events decodedStarts ws we = .ok ↔
        ((icsWindowOf decodedStarts ws we).length = (filterWindow events ws we).length ∧
         (srcWeek1 events ws we).length = wk1 ∧ (srcWeek2 events ws we).length = wk2 ∧
         (icsWeek1 decodedStarts ws we).length = wk1 ∧
         (icsWeek2 decodedStarts ws we).length = wk2)) ∧
    validateAgainstSource (some (20, 15)) c9Events c9Decoded 0 1209600000 =
      .icsSplitMismatch := by
  constructor
  · intro wk1 wk2 events decodedStarts ws we
    have hv : validateAgainstSource (some (wk1, wk2)) events decodedStarts ws we =
        (if (icsWindowOf decodedStarts ws we).length ≠ (filterWindow events ws we).length then
          .countMismatch
        else if (srcWeek1 events ws we).length ≠ wk1 ∨ (srcWeek2 events ws we).length ≠ wk2 then
          .srcSplitMismatch
        else if (icsWeek1 decodedStarts ws we).length ≠ wk1 ∨
            (icsWeek2 decodedStarts ws we).length ≠ wk2 then
          .icsSplitMismatch
        else .ok) := rfl
    rw [hv]
    split_ifs with h1 h2 h3
    · exact iff_of_false (by simp) (fun hc => h1 hc.1)
    · refine iff_of_false (by simp) (fun hc => ?_)
      rcases h2 with h | h
      · exact h hc.2.1
      · exact h hc.2.2.1
    · refine iff_of_false (by simp) (fun hc => ?_)
      rcases h3 with h | h
      · exact h hc.2.2.2.1
      · exact h hc.2.2.2.2
    · push_neg at h1 h2 h3
      exact iff_of_true rfl ⟨h1, h2.1, h2.2, h3.1, h3.2⟩
  · decide

/-- Claim C3: for the publish gate (modelled from the main IIFE), once the
sanity threshold passes, a failed validation always yields a non-zero exit
status and — when last-good protection is on and a last-good artifact
exists — restores that artifact over the output path; a passed validation
yields exit status zero and (with protection on) updates the last-good
copy to the freshly published artifact. -/
theorem c3_publish_gate (sanity : SanityCfg) (expected : Option (Nat × Nat))
    (fs0 : PublishFS) (events : List Event) (decodedStarts : List Int)
    (icsText jsonText : String) (ws we : Int)
    (hsan : sanity.minEvents ≤ events.length) :
    (validateAgainstSource expected events decodedStarts ws we ≠ .ok →
      (runPublish sanity expected fs0 events decodedStarts icsText jsonText ws we).exitCode ≠ 0 ∧
      (sanity.protectLastGood = true → ∀ g, fs0.lastGood = some g →
        (runPublish sanity expected fs0 events decodedStarts icsText jsonText
          ws we).fs.output = some g)) ∧
    (validateAgainstSource expected events decodedStarts ws we = .ok →
      (runPublish sanity expected fs0 events decodedStarts icsText jsonText ws we).exitCode = 0 ∧
      (sanity.protectLastGood = true →
        (runPublish sanity expected fs0 events decodedStarts icsText jsonText
          ws we).fs.lastGood = some icsText ∧
        (runPublish sanity expected fs0 events decodedStarts icsText jsonText
          ws we).fs.output = some icsText)) := by
  have hsan2 : ¬(events.length < sanity.minEvents) := by omega
  constructor
  · intro hfail
    cases hval : validateAgainstSource expected events decodedStarts ws we with
    | ok => exact absurd hval hfail
    | countMismatch | srcSplitMismatch | icsSplitMismatch =>
      cases hpro : sanity.protectLastGood with
      | false =>
        refine ⟨by simp [runPublish, hsan2, hval, hpro], ?_⟩
        intro hc
        exact absurd hc (by simp)
      | true =>
        refine ⟨?_, ?_⟩
        · cases hlg : fs0.lastGood <;> simp [runPublish, hsan2, hval, hpro, hlg]
        · intro _ g hg
          simp [runPublish, hsan2, hval, hpro, hg]
  · intro hok
    cases hpro : sanity.protectLastGood with
    | false =>
      refine ⟨by simp [runPublish, hsan2, hok, hpro], ?_⟩
      intro hc
      exact absurd hc (by simp)
    | true =>
      exact ⟨by simp [runPublish, hsan2, hok, hpro],
        fun _ => ⟨by simp [runPublish, hsan2, hok, hpro],
          by simp [runPublish, hsan2, hok, hpro]⟩⟩

/-- Witness for C3: a concrete failing validation with protection on and a
last-good artifact present exits non-zero and restores the last-good
content over the output path. -/
theorem c3_publish_gate_witness :
    (runPublish ⟨0, true⟩ none ⟨none, none, some "GOOD"⟩ [c3WitEvent] [] "NEW" "JSON"
      0 100).exitCode ≠ 0 ∧
    (runPublish ⟨0, true⟩ none ⟨none, none, some "GOOD"⟩ [c3WitEvent] [] "NEW" "JSON"
      0 100).fs.output = some "GOOD" := by
  have h := (c3_publish_gate ⟨0, true⟩ none ⟨none, none, some "GOOD"⟩ [c3WitEvent] []
    "NEW" "JSON" 0 100 (by decide)).1 (by decide)
  exact ⟨h.1, h.2 rfl "GOOD" rfl⟩

/-- Claim C4: for every sequence of navigation responses — including all
"no movement" and all "movement but no new events" — both navigator
variants reach their final state within the budgets: the `MAX_PREV`/
`MAX_NEXT` variant halts with at most 8 backward and 12 forward moves, and
the guarded variant (shared iteration budget 20, staleness budget 5,
wall-clock watchdog) halts with at most 20 loop iterations in total;
neither loops unboundedly. -/
theorem c4_navigator_terminates (env : NavEnv) :
    (∃ p : Nat × Nat, navigatePart env = some p ∧ p.1 ≤ 8 ∧ p.2 ≤ 12) ∧
    (∃ (st : IterState) (r : StopReason × StopReason),
      navigateScripts env = some (st, r) ∧ st.iterations ≤ 20) := by
  constructor
  · obtain ⟨m1, t1, h1, hb1⟩ := runBudgetLoop_total env.okStart env.movedPrev 8 9 0 0 (by omega)
    obtain ⟨m2, t2, h2, hb2⟩ :=
      runBudgetLoop_total env.okEnd env.movedNext 12 13 0 t1 (by omega)
    exact ⟨(m1, m2), by simp [navigatePart, h1, h2], hb1 (by omega), hb2 (by omega)⟩
  · obtain ⟨st1, r1, h1, hb1⟩ := runGuardedLoop_total env.timeOk env.okStart env.movedPrev
      env.count 20 5 21 ⟨0, 0, 0, 0⟩ (by show (20:Nat) - 0 < 21; omega)
    have hit1 : st1.iterations ≤ 20 := hb1 (by show (0:Nat) ≤ 20; omega)
    obtain ⟨st2, r2, h2, hb2⟩ := runGuardedLoop_total env.timeOk env.okEnd env.movedNext
      env.count 20 5 21 ⟨st1.iterations, 0, st1.lastCount, st1.tick⟩
      (by show 20 - st1.iterations < 21; omega)
    refine ⟨st2, (r1, r2), ?_, hb2 hit1⟩
    simp only [navigateScripts, h1]
    have hst : ({ st1 with stale := 0 } : IterState) =
        ⟨st1.iterations, 0, st1.lastCount, st1.tick⟩ := rfl
    rw [hst, h2]

end Calendar
